import Mathlib

/-!
Verification of the session registry and message-routing engine of the
Simple TCP Chat Server (`chat_server.py`), as a shallow embedding.

Text is modelled as `List Char` (UTF-8 payloads at the granularity the
server inspects them), connection handles as natural numbers, the
registry (`self.clients`, a Python dict from socket to session record)
as an association list with Python-dict insertion semantics, and
timestamps as naturals.  Network sends are modelled by recording send
attempts; whether a given send raises is abstracted by a `sendOk`
predicate on handles.
-/

namespace Chat

/-- Text as a list of characters. -/
abbrev Str := List Char

/-- Coerce a string literal to the character-list representation. -/
def str (s : String) : Str := s.data

/-- The ASCII whitespace characters removed by Python `str.strip()`. -/
def pyWS (c : Char) : Bool :=
  c == ' ' || c == '\t' || c == '\n' || c == '\r' ||
  c == Char.ofNat 11 || c == Char.ofNat 12

/-- Python `s.lstrip()`: drop leading whitespace. -/
def stripLeft (l : Str) : Str := l.dropWhile pyWS

/-- Python `s.rstrip()`: drop trailing whitespace. -/
def stripRight (l : Str) : Str := (l.reverse.dropWhile pyWS).reverse

/-- Python `s.strip()`: drop leading and trailing whitespace. -/
def strip (l : Str) : Str := stripRight (stripLeft l)

/-- Python `s.startswith(p)` on character lists. -/
def startswith : Str → Str → Bool
  | [], _ => true
  | _ :: _, [] => false
  | p :: ps, c :: cs => p == c && startswith ps cs

/-- Python `s.split(sep, 1)`: split on the first occurrence of `sep`
only, yielding one or two fields. -/
def splitOnce (sep : Char) : Str → List Str
  | [] => [[]]
  | c :: rest =>
    if c == sep then [[], rest]
    else
      match splitOnce sep rest with
      | [x] => [(c :: x)]
      | [x, y] => [(c :: x), y]
      | other => other

/-- Whether a newline character occurs in the buffer (`b'\n' in data`). -/
def containsNl : Str → Bool
  | [] => false
  | c :: rest => c == '\n' || containsNl rest

/-- Opaque connection handle (a socket object in the source). -/
abbrev Handle := Nat

/-- One session record: `{'username': str, 'last_activity': timestamp}`. -/
structure Session where
  username : Str
  lastActivity : Nat
  deriving Repr, DecidableEq

/-- The `self.clients` dict: socket-keyed, insertion ordered. -/
abbrev Registry := List (Handle × Session)

/-- Python dict assignment `d[k] = v`: replace in place if the key is
present, otherwise append at the end. -/
def dictInsert (k : Handle) (v : Session) : Registry → Registry
  | [] => [(k, v)]
  | (k₀, v₀) :: rest =>
    if k₀ == k then (k, v) :: rest else (k₀, v₀) :: dictInsert k v rest

/-- Python `del d[k]` combined with the `k in d` guard: remove the entry
for `k` if present. -/
def dictRemove (k : Handle) : Registry → Registry
  | [] => []
  | (k₀, v₀) :: rest =>
    if k₀ == k then rest else (k₀, v₀) :: dictRemove k rest

/-- Python `k in d` / `d[k]` lookup. -/
def dictFind (k : Handle) : Registry → Option Session
  | [] => none
  | (k₀, v₀) :: rest => if k₀ == k then some v₀ else dictFind k rest

/-- First registered session whose username equals `u`, in iteration
order (the linear scans in `_send_direct_message`). -/
def findByUsername (u : Str) : Registry → Option Handle
  | [] => none
  | (k₀, v₀) :: rest => if v₀.username == u then some k₀ else findByUsername u rest

/-- `any(c['username'] == username for c in self.clients.values())`. -/
def usernameTaken (u : Str) (clients : Registry) : Bool :=
  clients.any fun c => c.2.username == u

/-- One attempted network send: recipient handle, the exact line pushed
through `sendall`, and whether the send succeeded (`sendall` may raise). -/
structure SendAttempt where
  recipient : Handle
  line : Str
  ok : Bool
  deriving Repr, DecidableEq

/-- Result of the registration check in `_handle_client` (lines 105-115). -/
inductive RegisterResult where
  | ok
  | errUsernameTaken
  deriving Repr, DecidableEq

/-- Lines 105-115 of `_handle_client`: under the lock, fail with
`ERR username-taken` if any existing session has this username,
otherwise insert `{'username': username, 'last_activity': now}`. -/
def register (sock : Handle) (username : Str) (now : Nat) (clients : Registry) :
    RegisterResult × Registry :=
  if usernameTaken username clients then (RegisterResult.errUsernameTaken, clients)
  else (RegisterResult.ok, dictInsert sock ⟨username, now⟩ clients)

/-- Outcome of feeding one received line to the login loop. -/
inductive LoginOutcome where
  | errInvalidUsername
  | errUsernameTaken
  | errMustLoginFirst
  | loggedIn (username : Str)
  deriving Repr, DecidableEq

/-- Lines 96-121 of `_handle_client`: one iteration of the login loop on
a received line `data`.  `command = data.strip()`; a `LOGIN ` prefix
yields `username = command[6:].strip()` which is rejected when empty,
then `register` runs; any other line yields `ERR must-login-first`. -/
def handle_login_line (data : Str) (sock : Handle) (now : Nat) (clients : Registry) :
    LoginOutcome × Registry :=
  let command := strip data
  if startswith (str "LOGIN ") command then
    let username := strip (command.drop 6)
    if username == [] then (LoginOutcome.errInvalidUsername, clients)
    else
      match register sock username now clients with
      | (RegisterResult.ok, c₁) => (LoginOutcome.loggedIn username, c₁)
      | (RegisterResult.errUsernameTaken, c₁) => (LoginOutcome.errUsernameTaken, c₁)
  else (LoginOutcome.errMustLoginFirst, clients)

/-- Lines 130-132 of `_handle_client`: under the lock, if the socket is
still registered, set its `last_activity` to the current time. -/
def touch (sock : Handle) (now : Nat) (clients : Registry) : Registry :=
  match dictFind sock clients with
  | some s => dictInsert sock { s with lastActivity := now } clients
  | none => clients

/-- The per-recipient send loop shared by `_broadcast_message` and
`_broadcast_info`: each handle is attempted in order; a raising send is
caught (logged or swallowed) and the loop continues with the rest. -/
def sendEach (message : Str) (sendOk : Handle → Bool) : List Handle → List SendAttempt
  | [] => []
  | h :: rest =>
    if sendOk h then ⟨h, message, true⟩ :: sendEach message sendOk rest
    else ⟨h, message, false⟩ :: sendEach message sendOk rest

/-- Lines 183-192, `_broadcast_message`: format `MSG <sender> <text>\n`
and attempt it to every registered socket, sender included. -/
def broadcast_message (sender text : Str) (clients : Registry)
    (sendOk : Handle → Bool) : List SendAttempt :=
  sendEach (str "MSG " ++ sender ++ str " " ++ text ++ str "\n") sendOk
    (clients.map Prod.fst)

/-- Lines 194-203, `_broadcast_info`: format `INFO <text>\n` and attempt
it to every registered socket, swallowing per-recipient failures. -/
def broadcast_info (text : Str) (clients : Registry)
    (sendOk : Handle → Bool) : List SendAttempt :=
  sendEach (str "INFO " ++ text ++ str "\n") sendOk (clients.map Prod.fst)

/-- Lines 232-240, `_send_user_list`: one `USER <username>\n` line per
session, in registry order, all to the requesting socket; a failing
line send is swallowed and the loop continues. -/
def send_user_list (sock : Handle) (sendOk : Handle → Bool) :
    Registry → List SendAttempt
  | [] => []
  | c :: rest =>
    if sendOk sock then
      ⟨sock, str "USER " ++ c.2.username ++ str "\n", true⟩ :: send_user_list sock sendOk rest
    else
      ⟨sock, str "USER " ++ c.2.username ++ str "\n", false⟩ :: send_user_list sock sendOk rest

/-- Lines 205-230, `_send_direct_message`: find the target by username
scan; if found, send `DM <sender> <text>\n` to it (failure logged);
otherwise re-scan for the sender by username and, if found, send
`ERR user-not-found\n` there; if that scan also fails, send nothing. -/
def send_direct_message (sender target text : Str) (clients : Registry)
    (sendOk : Handle → Bool) : List SendAttempt :=
  match findByUsername target clients with
  | some tsock => [⟨tsock, str "DM " ++ sender ++ str " " ++ text ++ str "\n", sendOk tsock⟩]
  | none =>
    match findByUsername sender clients with
    | some ssock => [⟨ssock, str "ERR user-not-found\n", sendOk ssock⟩]
    | none => []

/-- Result of `_handle_disconnect`. -/
structure DisconnectResult where
  clients : Registry
  removed : Bool
  sends : List SendAttempt
  deriving Repr, DecidableEq

/-- Lines 174-181 of `_handle_disconnect`: close the socket, then, if
the (possibly rebound) `username` is truthy — not `None` and not empty
— broadcast `INFO <username> disconnected` to every session still in
the registry. -/
def disconnectAnnounce (username : Option Str) (clients : Registry) (removed : Bool)
    (sendOk : Handle → Bool) : DisconnectResult :=
  match username with
  | some u =>
    if u == [] then ⟨clients, removed, []⟩
    else ⟨clients, removed, broadcast_info (u ++ str " disconnected") clients sendOk⟩
  | none => ⟨clients, removed, []⟩

/-- Lines 167-181, `_handle_disconnect`: under the lock, if the socket
is still registered, rebind `username` to its stored username and
delete the entry; otherwise keep the caller-supplied `username`
argument; then close and announce as in `disconnectAnnounce`. -/
def handle_disconnect (sock : Handle) (username : Option Str) (clients : Registry)
    (sendOk : Handle → Bool) : DisconnectResult :=
  match dictFind sock clients with
  | some s => disconnectAnnounce (some s.username) (dictRemove sock clients) true sendOk
  | none => disconnectAnnounce username clients false sendOk

/-- The action taken by one iteration of the post-login command loop. -/
inductive CommandAction where
  | broadcast (text : Str)
  | silentIgnore
  | who
  | dm (target text : Str)
  | reply (line : Str)
  deriving Repr, DecidableEq

/-- Lines 134-158 of `_handle_client`: dispatch one received line after
login.  `command = data.strip()`; an `MSG ` prefix broadcasts the
trimmed text if non-empty and otherwise does nothing; `WHO` lists
users; a `DM ` prefix splits once on a space into target and text;
`PING` answers `PONG`; anything else answers `ERR unknown-command`. -/
def handle_command (data : Str) : CommandAction :=
  if startswith (str "MSG ") (strip data) then
    if strip ((strip data).drop 4) == [] then CommandAction.silentIgnore
    else CommandAction.broadcast (strip ((strip data).drop 4))
  else if strip data == str "WHO" then CommandAction.who
  else if startswith (str "DM ") (strip data) then
    match splitOnce ' ' (strip ((strip data).drop 3)) with
    | [target, text] => CommandAction.dm target text
    | _ => CommandAction.reply (str "ERR invalid-dm-format\n")
  else if strip data == str "PING" then CommandAction.reply (str "PONG\n")
  else CommandAction.reply (str "ERR unknown-command\n")

/-- Lines 269-284, `_receive_message`: accumulate `recv` chunks into a
local buffer until it contains a newline (an empty chunk means the
peer closed: return no line), then return only the part of the buffer
before the first newline; the rest of the buffer is a local variable
and is dropped.  The transport is the list of chunks the peer's socket
will yield; the returned remainder is what later calls can still read. -/
def receive_loop : List Str → Str → Option (Str × List Str)
  | [], data =>
    if containsNl data then some (data.takeWhile fun c => !(c == '\n'), []) else none
  | ch :: rest, data =>
    if containsNl data then some (data.takeWhile fun c => !(c == '\n'), ch :: rest)
    else if ch == [] then none else receive_loop rest (data ++ ch)

/-- `_receive_message` entered with an empty buffer, as the source does
on every call. -/
def receive_message (chunks : List Str) : Option (Str × List Str) :=
  receive_loop chunks []

/-- `self.idle_timeout` (line 23). -/
def idle_timeout : Nat := 60

/-- The reaper's sleep interval in seconds (line 245). -/
def reap_interval : Nat := 10

/-- Line 250: `current_time - info['last_activity'] > self.idle_timeout`. -/
def timedOut (now : Nat) (s : Session) : Bool :=
  decide (idle_timeout < now - s.lastActivity)

/-- What the reaper does to one stale session inside a scan. -/
structure ReapAction where
  handle : Handle
  infoSend : SendAttempt
  disconnectStarted : Bool
  deriving Repr, DecidableEq

/-- Lines 247-260, one reaper scan at time `now`: under the lock, every
session whose elapsed idle time strictly exceeds the threshold is sent
`INFO idle-timeout\n` and, when that send does not raise, a
`_handle_disconnect` thread is started for it (a raising send skips
the thread start, caught by the bare `except`). -/
def check_idle_scan (now : Nat) (clients : Registry)
    (sendOk : Handle → Bool) : List ReapAction :=
  clients.filterMap fun c =>
    if timedOut now c.2 then
      some ⟨c.1, ⟨c.1, str "INFO idle-timeout\n", sendOk c.1⟩, sendOk c.1⟩
    else none

/-- Scan instants of the reaper thread started at `start`: it sleeps
`reap_interval` seconds before every scan (line 245), so scan `k`
happens at `start + reap_interval * (k + 1)` under idealized timing. -/
def scan_time (start k : Nat) : Nat := start + reap_interval * (k + 1)

/-- Events of a delivery routine, for reasoning about where sends sit
relative to the registry lock. -/
inductive Event where
  | acquire
  | release
  | send (h : Handle) (line : Str)
  deriving Repr, DecidableEq

/-- All four delivery routines share this shape in the source: enter
`with self.clients_lock`, perform every per-recipient send inside the
block, release on exit. -/
def sendTraceUnderLock (sends : List SendAttempt) : List Event :=
  Event.acquire :: (sends.map fun a => Event.send a.recipient a.line) ++ [Event.release]

/-- Lock/send trace of `_broadcast_message` (lines 187-192). -/
def broadcast_message_trace (sender text : Str) (clients : Registry)
    (sendOk : Handle → Bool) : List Event :=
  sendTraceUnderLock (broadcast_message sender text clients sendOk)

/-- Lock/send trace of `_broadcast_info` (lines 198-203). -/
def broadcast_info_trace (text : Str) (clients : Registry)
    (sendOk : Handle → Bool) : List Event :=
  sendTraceUnderLock (broadcast_info text clients sendOk)

/-- Lock/send trace of `_send_user_list` (lines 234-240). -/
def send_user_list_trace (sock : Handle) (clients : Registry)
    (sendOk : Handle → Bool) : List Event :=
  sendTraceUnderLock (send_user_list sock sendOk clients)

/-- Lock/send trace of `_send_direct_message` (lines 207-230). -/
def send_direct_message_trace (sender target text : Str) (clients : Registry)
    (sendOk : Handle → Bool) : List Event :=
  sendTraceUnderLock (send_direct_message sender target text clients sendOk)

/-- `true` when no send event in the trace happens at positive lock
depth (the property the specification asserts). -/
def noSendHeldLock : List Event → Nat → Bool
  | [], _ => true
  | Event.acquire :: r, d => noSendHeldLock r (d + 1)
  | Event.release :: r, d => noSendHeldLock r (d - 1)
  | Event.send _ _ :: r, d => (d == 0) && noSendHeldLock r d

/-- `true` when every send event in the trace happens at positive lock
depth (what the source actually does). -/
def allSendsHeldLock : List Event → Nat → Bool
  | [], _ => true
  | Event.acquire :: r, d => allSendsHeldLock r (d + 1)
  | Event.release :: r, d => allSendsHeldLock r (d - 1)
  | Event.send _ _ :: r, d => decide (0 < d) && allSendsHeldLock r d

/-- The registry states reachable through the operations the server
performs on `self.clients`: it starts empty; workers run login lines,
touches and disconnects; the reaper runs disconnects. -/
inductive Reachable : Registry → Prop
  | init : Reachable []
  | login (data : Str) (sock : Handle) (now : Nat) {c : Registry} :
      Reachable c → Reachable (handle_login_line data sock now c).2
  | touchStep (sock : Handle) (now : Nat) {c : Registry} :
      Reachable c → Reachable (touch sock now c)
  | disconnect (sock : Handle) (username : Option Str) (sendOk : Handle → Bool)
      {c : Registry} :
      Reachable c → Reachable (handle_disconnect sock username c sendOk).clients

/-- No two sessions share a username. -/
def UniqueUsernames (c : Registry) : Prop :=
  c.Pairwise fun a b => a.2.username ≠ b.2.username

/-! ### Lemmas about the text primitives -/

theorem startswith_iff (p l : Str) : startswith p l = true ↔ ∃ r, l = p ++ r := by
  induction p generalizing l with
  | nil => simp [startswith]
  | cons a ps ih =>
    cases l with
    | nil => simp [startswith]
    | cons b t =>
      simp only [startswith, Bool.and_eq_true, beq_iff_eq, ih, List.cons_append,
        List.cons.injEq]
      constructor
      · rintro ⟨rfl, r, rfl⟩; exact ⟨r, rfl, rfl⟩
      · rintro ⟨r, rfl, rfl⟩; exact ⟨rfl, r, rfl⟩

theorem dropWhile_eq_self_head (p : Char → Bool) (c : Char) (t : Str)
    (h : List.dropWhile p (c :: t) = c :: t) : p c = false := by
  by_contra hc
  rw [List.dropWhile_cons_of_pos (by simpa using hc)] at h
  have := (List.dropWhile_sublist (l := t) p).length_le
  rw [h] at this
  simp at this

theorem dropWhile_dropWhile (p : Char → Bool) (l : Str) :
    List.dropWhile p (List.dropWhile p l) = List.dropWhile p l := by
  induction l with
  | nil => rfl
  | cons c t ih =>
    by_cases hc : p c = true
    · rw [List.dropWhile_cons_of_pos hc]; exact ih
    · rw [List.dropWhile_cons_of_neg (by simp [hc]),
        List.dropWhile_cons_of_neg (by simp [hc])]

theorem stripRight_stripRight (l : Str) : stripRight (stripRight l) = stripRight l := by
  unfold stripRight
  rw [List.reverse_reverse, dropWhile_dropWhile]

theorem stripRight_strip (l : Str) : stripRight (strip l) = strip l := by
  unfold strip
  exact stripRight_stripRight _

theorem stripRight_eq_nil_iff (l : Str) :
    stripRight l = [] ↔ ∀ c ∈ l, pyWS c = true := by
  unfold stripRight
  rw [List.reverse_eq_nil_iff, List.dropWhile_eq_nil_iff]
  constructor
  · intro h c hc; exact h c (List.mem_reverse.mpr hc)
  · intro h c hc; exact h c (List.mem_reverse.mp hc)

theorem strip_eq_nil_iff (l : Str) : strip l = [] ↔ ∀ c ∈ l, pyWS c = true := by
  unfold strip stripLeft
  rw [stripRight_eq_nil_iff]
  constructor
  · intro h c hc
    have hsplit : c ∈ List.takeWhile pyWS l ∨ c ∈ List.dropWhile pyWS l := by
      rw [← List.mem_append, List.takeWhile_append_dropWhile]
      exact hc
    rcases hsplit with h₁ | h₂
    · exact List.mem_takeWhile_imp h₁
    · exact h c h₂
  · intro h c hc
    exact h c ((List.dropWhile_sublist pyWS).subset hc)

theorem strip_length_le (l : Str) : (strip l).length ≤ l.length := by
  have h₁ : (stripLeft l).length ≤ l.length := (List.dropWhile_sublist pyWS).length_le
  have h₂ : (strip l).length ≤ (stripLeft l).length := by
    unfold strip stripRight
    rw [List.length_reverse]
    calc (List.dropWhile pyWS (stripLeft l).reverse).length
        ≤ (stripLeft l).reverse.length := (List.dropWhile_sublist pyWS).length_le
      _ = (stripLeft l).length := List.length_reverse _
  exact le_trans h₂ h₁

theorem dropWhile_eq_self_of_length (p : Char → Bool) (l : Str)
    (h : (List.dropWhile p l).length = l.length) : List.dropWhile p l = l :=
  (List.dropWhile_sublist p).eq_of_length h

theorem strip_fix_parts (u : Str) (h : strip u = u) :
    stripLeft u = u ∧ stripRight u = u := by
  have hlen₂ : (strip u).length ≤ (stripLeft u).length := by
    unfold strip stripRight
    rw [List.length_reverse]
    calc (List.dropWhile pyWS (stripLeft u).reverse).length
        ≤ (stripLeft u).reverse.length := (List.dropWhile_sublist pyWS).length_le
      _ = (stripLeft u).length := List.length_reverse _
  have hlen₁ : (stripLeft u).length ≤ u.length := (List.dropWhile_sublist pyWS).length_le
  have hfull : (stripLeft u).length = u.length := by
    have := congrArg List.length h
    omega
  have hL : stripLeft u = u := dropWhile_eq_self_of_length pyWS u hfull
  refine ⟨hL, ?_⟩
  have : stripRight u = strip u := by unfold strip; rw [hL]
  rw [this, h]

theorem stripLeft_cons_of_neg (c : Char) (t : Str) (h : pyWS c = false) :
    stripLeft (c :: t) = c :: t := by
  unfold stripLeft
  rw [List.dropWhile_cons_of_neg (by simp [h])]

theorem stripRight_append (m : Str) :
    ∃ w, m = stripRight m ++ w ∧ ∀ c ∈ w, pyWS c = true := by
  refine ⟨(List.takeWhile pyWS m.reverse).reverse, ?_, ?_⟩
  · unfold stripRight
    rw [← List.reverse_append, List.takeWhile_append_dropWhile, List.reverse_reverse]
  · intro c hc
    exact List.mem_takeWhile_imp (List.mem_reverse.mp hc)

theorem reverse_strip_fix (l : Str) :
    List.dropWhile pyWS (strip l).reverse = (strip l).reverse := by
  unfold strip stripRight
  rw [List.reverse_reverse]
  exact dropWhile_dropWhile _ _

theorem strip_head_not_ws (l : Str) (a : Char) (t : Str) (h : strip l = a :: t) :
    pyWS a = false := by
  obtain ⟨w, hw, _⟩ := stripRight_append (stripLeft l)
  have hw₁ : stripRight (stripLeft l) = a :: t := h
  rw [hw₁] at hw
  have hfix : List.dropWhile pyWS (stripLeft l) = stripLeft l := by
    unfold stripLeft
    exact dropWhile_dropWhile _ _
  rw [hw] at hfix
  exact dropWhile_eq_self_head pyWS a (t ++ w) (by simpa using hfix)

theorem stripLeft_strip (l : Str) : stripLeft (strip l) = strip l := by
  cases h : strip l with
  | nil => rfl
  | cons a t => exact stripLeft_cons_of_neg a t (strip_head_not_ws l a t h)

theorem strip_strip (l : Str) : strip (strip l) = strip l := by
  show stripRight (stripLeft (strip l)) = strip l
  rw [stripLeft_strip, stripRight_strip]

/-- A stripped line that still carries the `MSG ` prefix has a non-empty
trimmed payload: the outer strip already removed all trailing
whitespace, so the payload cannot be whitespace-only. -/
theorem strip_msg_payload_ne_nil (data : Str)
    (h : startswith (str "MSG ") (strip data) = true) :
    strip ((strip data).drop 4) ≠ [] := by
  obtain ⟨r, hr⟩ := (startswith_iff _ _).mp h
  have hdrop : (strip data).drop 4 = r := by rw [hr]; rfl
  rw [hdrop]
  intro hnil
  have hws : ∀ c ∈ r, pyWS c = true := (strip_eq_nil_iff r).mp hnil
  have hfix := reverse_strip_fix data
  rw [hr, List.reverse_append] at hfix
  have hrev4 : (str "MSG ").reverse = ' ' :: str "GSM" := rfl
  rw [hrev4] at hfix
  cases hrevr : r.reverse with
  | nil =>
    rw [hrevr, List.nil_append] at hfix
    have := dropWhile_eq_self_head pyWS ' ' (str "GSM") hfix
    exact absurd this (by decide)
  | cons d t =>
    have hd : d ∈ r := List.mem_reverse.mp (by rw [hrevr]; exact List.mem_cons_self _ _)
    rw [hrevr] at hfix
    have := dropWhile_eq_self_head pyWS d (t ++ (' ' :: str "GSM")) (by simpa using hfix)
    rw [hws d hd] at this
    exact Bool.noConfusion this

/-! ### Lemmas about the registry operations -/

theorem mem_dictInsert_sub (k : Handle) (v : Session) (c : Registry) :
    ∀ e ∈ dictInsert k v c, e = (k, v) ∨ e ∈ c := by
  induction c with
  | nil =>
    intro e he
    simp only [dictInsert, List.mem_singleton] at he
    exact Or.inl he
  | cons hd tl ih =>
    obtain ⟨k₀, v₀⟩ := hd
    intro e he
    simp only [dictInsert] at he
    split at he
    · rcases List.mem_cons.mp he with h | h
      · exact Or.inl h
      · exact Or.inr (List.mem_cons_of_mem _ h)
    · rcases List.mem_cons.mp he with h | h
      · exact Or.inr (by simp [h])
      · rcases ih e h with h₁ | h₁
        · exact Or.inl h₁
        · exact Or.inr (List.mem_cons_of_mem _ h₁)

theorem dictFind_mem (k : Handle) (c : Registry) (s : Session)
    (h : dictFind k c = some s) : (k, s) ∈ c := by
  induction c with
  | nil => simp [dictFind] at h
  | cons hd tl ih =>
    obtain ⟨k₀, v₀⟩ := hd
    simp only [dictFind] at h
    split at h
    · rename_i hk
      obtain rfl : v₀ = s := by injection h
      have hk' : k₀ = k := by simpa using hk
      subst hk'
      exact List.mem_cons_self _ _
    · exact List.mem_cons_of_mem _ (ih h)

theorem dictRemove_sublist (k : Handle) (c : Registry) : (dictRemove k c).Sublist c := by
  induction c with
  | nil => simp [dictRemove]
  | cons hd tl ih =>
    obtain ⟨k₀, v₀⟩ := hd
    simp only [dictRemove]
    split
    · exact List.sublist_cons_self _ _
    · exact ih.cons₂ _

theorem usernameTaken_eq_false_iff (u : Str) (c : Registry) :
    usernameTaken u c = false ↔ ∀ e ∈ c, e.2.username ≠ u := by
  unfold usernameTaken
  rw [List.any_eq_false]
  constructor
  · intro h e he hc
    exact h e he (by simpa using hc)
  · intro h e he hb
    exact h e he (by simpa using hb)

theorem findByUsername_eq_none_iff (u : Str) (c : Registry) :
    findByUsername u c = none ↔ ∀ e ∈ c, e.2.username ≠ u := by
  induction c with
  | nil => simp [findByUsername]
  | cons hd tl ih =>
    obtain ⟨k₀, v₀⟩ := hd
    simp only [findByUsername]
    split
    · rename_i h
      simp only [beq_iff_eq] at h
      constructor
      · intro hn
        cases hn
      · intro hall
        exact absurd h (by simpa using hall (k₀, v₀) (List.mem_cons_self _ _))
    · rename_i h
      simp only [beq_iff_eq] at h
      rw [ih]
      constructor
      · intro hall e he
        rcases List.mem_cons.mp he with rfl | he₁
        · simpa using h
        · exact hall e he₁
      · intro hall e he₁
        exact hall e (List.mem_cons_of_mem _ he₁)

theorem uniqueUsernames_dictInsert_new (k : Handle) (v : Session) (c : Registry)
    (hu : UniqueUsernames c) (hnew : ∀ e ∈ c, e.2.username ≠ v.username) :
    UniqueUsernames (dictInsert k v c) := by
  induction c with
  | nil => simp [dictInsert, UniqueUsernames]
  | cons hd tl ih =>
    obtain ⟨k₀, v₀⟩ := hd
    unfold UniqueUsernames at hu ⊢
    simp only [dictInsert]
    rw [List.pairwise_cons] at hu
    split
    · rw [List.pairwise_cons]
      exact ⟨fun e he => (hnew e (List.mem_cons_of_mem _ he)).symm, hu.2⟩
    · rw [List.pairwise_cons]
      refine ⟨fun e he => ?_, ih hu.2 fun e he => hnew e (List.mem_cons_of_mem _ he)⟩
      rcases mem_dictInsert_sub k v tl e he with rfl | he₁
      · exact hnew (k₀, v₀) (List.mem_cons_self _ _)
      · exact hu.1 e he₁

theorem uniqueUsernames_dictInsert_same (k : Handle) (v s : Session) (c : Registry)
    (hu : UniqueUsernames c) (hf : dictFind k c = some s) (hv : v.username = s.username) :
    UniqueUsernames (dictInsert k v c) := by
  induction c with
  | nil => simp [dictFind] at hf
  | cons hd tl ih =>
    obtain ⟨k₀, v₀⟩ := hd
    unfold UniqueUsernames at hu ⊢
    simp only [dictFind] at hf
    simp only [dictInsert]
    rw [List.pairwise_cons] at hu
    by_cases hk : (k₀ == k) = true
    · rw [if_pos hk] at hf
      rw [if_pos hk, List.pairwise_cons]
      have hs₀ : v₀ = s := by injection hf
      refine ⟨fun e he => ?_, hu.2⟩
      show v.username ≠ e.2.username
      rw [hv, ← hs₀]
      exact hu.1 e he
    · rw [if_neg hk] at hf
      rw [if_neg hk, List.pairwise_cons]
      refine ⟨fun e he => ?_, ih hu.2 hf⟩
      rcases mem_dictInsert_sub k v tl e he with rfl | he₁
      · show v₀.username ≠ v.username
        rw [hv]
        exact hu.1 (k, s) (dictFind_mem k tl s hf)
      · exact hu.1 e he₁

/-- Every stored username is non-empty and strip-invariant. -/
def GoodNames (c : Registry) : Prop :=
  ∀ e ∈ c, e.2.username ≠ [] ∧ strip e.2.username = e.2.username

theorem handle_login_line_registry (data : Str) (sock : Handle) (now : Nat) (c : Registry) :
    (handle_login_line data sock now c).2 = c ∨
    (strip ((strip data).drop 6) ≠ [] ∧
      usernameTaken (strip ((strip data).drop 6)) c = false ∧
      (handle_login_line data sock now c).2 =
        dictInsert sock ⟨strip ((strip data).drop 6), now⟩ c) := by
  unfold handle_login_line
  by_cases hs : startswith (str "LOGIN ") (strip data) = true
  · rw [if_pos hs]
    by_cases hu : (strip ((strip data).drop 6) == []) = true
    · rw [if_pos hu]
      left
      rfl
    · rw [if_neg hu]
      unfold register
      by_cases hT : usernameTaken (strip ((strip data).drop 6)) c = true
      · rw [if_pos hT]
        left
        rfl
      · rw [if_neg hT]
        right
        exact ⟨by simpa using hu, by simpa using hT, rfl⟩
  · rw [if_neg hs]
    left
    rfl

theorem disconnectAnnounce_clients (username : Option Str) (clients : Registry)
    (removed : Bool) (sendOk : Handle → Bool) :
    (disconnectAnnounce username clients removed sendOk).clients = clients := by
  unfold disconnectAnnounce
  split
  · split <;> rfl
  · rfl

theorem handle_disconnect_clients (sock : Handle) (username : Option Str)
    (c : Registry) (sendOk : Handle → Bool) :
    (handle_disconnect sock username c sendOk).clients = dictRemove sock c ∨
    (handle_disconnect sock username c sendOk).clients = c := by
  unfold handle_disconnect
  cases hf : dictFind sock c with
  | some s =>
    left
    exact disconnectAnnounce_clients _ _ _ _
  | none =>
    right
    exact disconnectAnnounce_clients _ _ _ _

theorem reachable_inv (c : Registry) (h : Reachable c) :
    UniqueUsernames c ∧ GoodNames c := by
  induction h with
  | init =>
    exact ⟨List.Pairwise.nil, fun e he => absurd he (List.not_mem_nil e)⟩
  | login data sock now hR ih =>
    rcases handle_login_line_registry data sock now _ with heq | ⟨hne, hfree, heq⟩
    · rw [heq]
      exact ih
    · rw [heq]
      constructor
      · exact uniqueUsernames_dictInsert_new _ _ _ ih.1
          ((usernameTaken_eq_false_iff _ _).mp hfree)
      · intro e he
        rcases mem_dictInsert_sub _ _ _ e he with rfl | he₁
        · exact ⟨hne, strip_strip _⟩
        · exact ih.2 e he₁
  | touchStep sock now hR ih =>
    unfold touch
    cases hf : dictFind sock _ with
    | none => exact ih
    | some s =>
      constructor
      · exact uniqueUsernames_dictInsert_same sock _ s _ ih.1 hf rfl
      · intro e he
        rcases mem_dictInsert_sub _ _ _ e he with rfl | he₁
        · exact ih.2 (sock, s) (dictFind_mem _ _ _ hf)
        · exact ih.2 e he₁
  | disconnect sock username sendOk hR ih =>
    rcases handle_disconnect_clients sock username _ sendOk with heq | heq
    · rw [heq]
      refine ⟨ih.1.sublist (dictRemove_sublist _ _), fun e he => ?_⟩
      exact ih.2 e ((dictRemove_sublist _ _).subset he)
    · rw [heq]
      exact ih

/-! ### Lemmas about delivery, traces, the reaper and the line receiver -/

theorem sendEach_eq_map (message : Str) (sendOk : Handle → Bool) (hs : List Handle) :
    sendEach message sendOk hs = hs.map fun h => ⟨h, message, sendOk h⟩ := by
  induction hs with
  | nil => rfl
  | cons h t ih =>
    by_cases hOk : sendOk h = true
    · simp [sendEach, hOk, ih]
    · simp only [Bool.not_eq_true] at hOk
      simp [sendEach, hOk, ih]

theorem send_user_list_eq_map (sock : Handle) (sendOk : Handle → Bool) (c : Registry) :
    send_user_list sock sendOk c =
      c.map fun e => ⟨sock, str "USER " ++ e.2.username ++ str "\n", sendOk sock⟩ := by
  induction c with
  | nil => rfl
  | cons e t ih =>
    by_cases hOk : sendOk sock = true
    · simp [send_user_list, hOk, ih]
    · simp only [Bool.not_eq_true] at hOk
      simp [send_user_list, hOk, ih]

theorem allSendsHeldLock_aux (sends : List SendAttempt) (d : Nat) (hd : 0 < d) :
    allSendsHeldLock
      ((sends.map fun a => Event.send a.recipient a.line) ++ [Event.release]) d = true := by
  induction sends generalizing d with
  | nil => simp [allSendsHeldLock]
  | cons a t ih =>
    simp only [List.map_cons, List.cons_append, allSendsHeldLock]
    simp [hd, ih d hd]

theorem allSendsHeldLock_trace (sends : List SendAttempt) :
    allSendsHeldLock (sendTraceUnderLock sends) 0 = true := by
  unfold sendTraceUnderLock
  show allSendsHeldLock _ (0 + 1) = true
  exact allSendsHeldLock_aux sends 1 (by decide)

theorem split_at_newline (data : Str) (h : containsNl data = true) :
    ∃ tail, data = data.takeWhile (fun c => !(c == '\n')) ++ '\n' :: tail ∧
      containsNl (data.takeWhile (fun c => !(c == '\n'))) = false := by
  induction data with
  | nil => cases h
  | cons c t ih =>
    by_cases hc : (c == '\n') = true
    · have hc₁ : c = '\n' := by simpa using hc
      subst hc₁
      refine ⟨t, ?_, ?_⟩
      · rw [List.takeWhile_cons_of_neg (by simp)]
        rfl
      · rw [List.takeWhile_cons_of_neg (by simp)]
        rfl
    · have ht : containsNl t = true := by
        rw [containsNl] at h
        simpa [hc] using h
      obtain ⟨tail, h₁, h₂⟩ := ih ht
      refine ⟨tail, ?_, ?_⟩
      · rw [List.takeWhile_cons_of_pos (by simp [hc])]
        rw [List.cons_append, ← h₁]
      · rw [List.takeWhile_cons_of_pos (by simp [hc])]
        rw [containsNl]
        simp [hc, h₂]

theorem receive_loop_spec (chunks : List Str) (data line : Str) (rest : List Str)
    (h : receive_loop chunks data = some (line, rest)) :
    ∃ consumed discarded, chunks = consumed ++ rest ∧
      data ++ consumed.flatten = line ++ '\n' :: discarded ∧
      containsNl line = false := by
  induction chunks generalizing data with
  | nil =>
    rw [receive_loop] at h
    by_cases hn : containsNl data = true
    · rw [if_pos hn] at h
      obtain ⟨hline, hrest⟩ : data.takeWhile (fun c => !(c == '\n')) = line ∧ [] = rest := by
        injection h with h₁
        exact ⟨congrArg Prod.fst h₁, congrArg Prod.snd h₁⟩
      obtain ⟨tail, hsplit, hnl⟩ := split_at_newline data hn
      refine ⟨[], tail, by rw [← hrest]; rfl, ?_, by rw [← hline]; exact hnl⟩
      have hfl : ([] : List Str).flatten = [] := rfl
      rw [hfl, List.append_nil, ← hline]
      exact hsplit
    · rw [if_neg hn] at h
      cases h
  | cons ch rest₀ ih =>
    rw [receive_loop] at h
    by_cases hn : containsNl data = true
    · rw [if_pos hn] at h
      obtain ⟨hline, hrest⟩ : data.takeWhile (fun c => !(c == '\n')) = line ∧ ch :: rest₀ = rest := by
        injection h with h₁
        exact ⟨congrArg Prod.fst h₁, congrArg Prod.snd h₁⟩
      obtain ⟨tail, hsplit, hnl⟩ := split_at_newline data hn
      refine ⟨[], tail, by rw [← hrest]; rfl, ?_, by rw [← hline]; exact hnl⟩
      have hfl : ([] : List Str).flatten = [] := rfl
      rw [hfl, List.append_nil, ← hline]
      exact hsplit
    · rw [if_neg hn] at h
      by_cases hch : (ch == []) = true
      · rw [if_pos hch] at h
        cases h
      · rw [if_neg hch] at h
        obtain ⟨consumed, discarded, hc₁, hc₂, hc₃⟩ := ih (data ++ ch) h
        refine ⟨ch :: consumed, discarded, by rw [List.cons_append, ← hc₁], ?_, hc₃⟩
        have hfl : (ch :: consumed).flatten = ch ++ consumed.flatten := rfl
        rw [hfl, ← List.append_assoc]
        exact hc₂

theorem dropWhile_append_all (p : Char → Bool) (a b : Str) (h : ∀ c ∈ a, p c = true) :
    List.dropWhile p (a ++ b) = List.dropWhile p b := by
  induction a with
  | nil => rfl
  | cons c t ih =>
    rw [List.cons_append, List.dropWhile_cons_of_pos (h c (List.mem_cons_self _ _))]
    exact ih fun x hx => h x (List.mem_cons_of_mem _ hx)

theorem check_idle_scan_eq_filter (now : Nat) (clients : Registry)
    (sendOk : Handle → Bool) :
    check_idle_scan now clients sendOk =
      (clients.filter fun e => timedOut now e.2).map
        (fun e => ⟨e.1, ⟨e.1, str "INFO idle-timeout\n", sendOk e.1⟩, sendOk e.1⟩) := by
  induction clients with
  | nil => rfl
  | cons e t ih =>
    by_cases hT : timedOut now e.2 = true
    · simp only [check_idle_scan, List.filterMap_cons, hT, List.filter_cons, if_pos hT,
        List.map_cons, ite_true]
      exact congrArg _ ih
    · have hT₀ : timedOut now e.2 = false := by
        cases hq : timedOut now e.2
        · rfl
        · exact absurd hq hT
      simp only [check_idle_scan, List.filterMap_cons, hT₀, List.filter_cons,
        Bool.false_eq_true, if_false]
      exact ih

theorem first_reap_window (start a k : Nat) (hs : start ≤ a)
    (hk : idle_timeout < scan_time start k - a)
    (hfirst : ∀ j, j < k → scan_time start j - a ≤ idle_timeout) :
    idle_timeout < scan_time start k - a ∧
      scan_time start k - a ≤ idle_timeout + reap_interval := by
  unfold scan_time reap_interval idle_timeout at hk hfirst ⊢
  cases k with
  | zero => omega
  | succ j =>
    have := hfirst j (Nat.lt_succ_self j)
    omega

/-! ### The claims -/

/-- C1: in every reachable registry state there is at most one session
per username value; `register(handle, username)` succeeds and inserts
a new session with the given current timestamp if and only if no
existing session's username is byte-for-byte equal to the requested
one, and when it fails with `ERR username-taken` the registry is left
unchanged. -/
theorem register_unique_and_atomic (c : Registry) (hR : Reachable c)
    (sock : Handle) (u : Str) (now : Nat) :
    UniqueUsernames c ∧
    ((register sock u now c).1 = RegisterResult.ok ↔ ∀ e ∈ c, e.2.username ≠ u) ∧
    ((register sock u now c).1 = RegisterResult.ok →
      (register sock u now c).2 = dictInsert sock ⟨u, now⟩ c) ∧
    ((register sock u now c).1 = RegisterResult.errUsernameTaken →
      (register sock u now c).2 = c) := by
  have hinv := (reachable_inv c hR).1
  unfold register
  by_cases hT : usernameTaken u c = true
  · rw [if_pos hT]
    refine ⟨hinv, ⟨fun h => RegisterResult.noConfusion h, fun hall => ?_⟩,
      fun h => RegisterResult.noConfusion h, fun _ => rfl⟩
    rw [← usernameTaken_eq_false_iff] at hall
    rw [hall] at hT
    exact Bool.noConfusion hT
  · rw [if_neg hT]
    have hfree : usernameTaken u c = false := by
      cases hq : usernameTaken u c
      · rfl
      · exact absurd hq hT
    exact ⟨hinv, ⟨fun _ => (usernameTaken_eq_false_iff u c).mp hfree, fun _ => rfl⟩,
      fun _ => rfl, fun h => RegisterResult.noConfusion h⟩

/-- C1 witness: instantiation at a concrete reachable registry holding
the session `alice`. -/
theorem register_unique_and_atomic_witness :
    UniqueUsernames [(1, (⟨str "alice", 5⟩ : Session))] ∧
    ((register 2 (str "bob") 9 [(1, ⟨str "alice", 5⟩)]).1 = RegisterResult.ok ↔
      ∀ e ∈ [(1, (⟨str "alice", 5⟩ : Session))], e.2.username ≠ str "bob") ∧
    ((register 2 (str "bob") 9 [(1, ⟨str "alice", 5⟩)]).1 = RegisterResult.ok →
      (register 2 (str "bob") 9 [(1, ⟨str "alice", 5⟩)]).2 =
        dictInsert 2 ⟨str "bob", 9⟩ [(1, ⟨str "alice", 5⟩)]) ∧
    ((register 2 (str "bob") 9 [(1, ⟨str "alice", 5⟩)]).1 = RegisterResult.errUsernameTaken →
      (register 2 (str "bob") 9 [(1, ⟨str "alice", 5⟩)]).2 = [(1, ⟨str "alice", 5⟩)]) :=
  register_unique_and_atomic _ (Reachable.login (str "LOGIN alice") 1 5 Reachable.init)
    2 (str "bob") 9

/-- C2 (code bug): `_handle_disconnect` is not announcement-idempotent.
The first call for handle 1 removes the session and broadcasts
`INFO alice disconnected` once; a second call for the same, already
absent handle with the username argument still set (as both the
worker teardown and the reaper pass it) removes nothing but
broadcasts the same departure announcement a second time. -/
theorem second_disconnect_rebroadcasts :
    (handle_disconnect 1 (some (str "alice"))
        [(1, ⟨str "alice", 3⟩), (2, ⟨str "bob", 7⟩)] (fun _ => true) =
      ⟨[(2, ⟨str "bob", 7⟩)], true, [⟨2, str "INFO alice disconnected\n", true⟩]⟩) ∧
    (handle_disconnect 1 (some (str "alice")) [(2, ⟨str "bob", 7⟩)] (fun _ => true) =
      ⟨[(2, ⟨str "bob", 7⟩)], false, [⟨2, str "INFO alice disconnected\n", true⟩]⟩) := by
  decide

/-- C3 counterexample: with one registered session, both the broadcast
routine and the presence-list routine perform their send at positive
lock depth, refuting the claim that the snapshot is taken under the
lock and the sends happen only after release. -/
theorem lock_held_across_send_counterexample :
    noSendHeldLock (broadcast_message_trace (str "alice") (str "hi")
      [(1, ⟨str "alice", 0⟩)] (fun _ => true)) 0 = false ∧
    noSendHeldLock (send_user_list_trace 1 [(1, ⟨str "alice", 0⟩)] (fun _ => true)) 0 =
      false := by
  decide

/-- C3 amended: every broadcast, info, presence-list and direct-message
delivery performs all of its per-recipient sends while holding the
registry lock — the iteration copies the key list inside the locked
block and the sends also sit inside it. -/
theorem sends_performed_under_lock (sender target text : Str) (clients : Registry)
    (sock : Handle) (sendOk : Handle → Bool) :
    allSendsHeldLock (broadcast_message_trace sender text clients sendOk) 0 = true ∧
    allSendsHeldLock (broadcast_info_trace text clients sendOk) 0 = true ∧
    allSendsHeldLock (send_user_list_trace sock clients sendOk) 0 = true ∧
    allSendsHeldLock (send_direct_message_trace sender target text clients sendOk) 0 =
      true :=
  ⟨allSendsHeldLock_trace _, allSendsHeldLock_trace _, allSendsHeldLock_trace _,
    allSendsHeldLock_trace _⟩

/-- C4: a broadcast of `text` from `sender` attempts the exact line
`MSG <sender> <text>\n` to every session of the snapshot in order —
the sender's own included — and the attempted recipients and lines do
not depend on which sends fail, so one recipient's failure never
suppresses the attempt to any later recipient. -/
theorem broadcast_attempts_every_session (sender text : Str) (clients : Registry)
    (sendOk sendOk₁ : Handle → Bool) :
    broadcast_message sender text clients sendOk =
      clients.map (fun e =>
        ⟨e.1, str "MSG " ++ sender ++ str " " ++ text ++ str "\n", sendOk e.1⟩) ∧
    (broadcast_message sender text clients sendOk).map (fun a => (a.recipient, a.line)) =
      (broadcast_message sender text clients sendOk₁).map
        (fun a => (a.recipient, a.line)) := by
  constructor
  · rw [broadcast_message, sendEach_eq_map, List.map_map]
    rfl
  · rw [broadcast_message, broadcast_message, sendEach_eq_map, sendEach_eq_map,
      List.map_map, List.map_map, List.map_map, List.map_map]
    rfl

/-- C5: when no session's username equals the DM target, the routine
replies `ERR user-not-found\n` on the connection found by re-scanning
the registry for the sender's username — and sends nothing at all
(to anyone) when that re-scan finds no session either. -/
theorem dm_target_not_found (clients : Registry) (sender target text : Str)
    (sendOk : Handle → Bool) (habsent : ∀ e ∈ clients, e.2.username ≠ target) :
    send_direct_message sender target text clients sendOk =
      (match findByUsername sender clients with
       | some ssock => [⟨ssock, str "ERR user-not-found\n", sendOk ssock⟩]
       | none => []) := by
  have htarget : findByUsername target clients = none :=
    (findByUsername_eq_none_iff target clients).mpr habsent
  simp only [send_direct_message, htarget]

/-- C5 witness: a one-session registry, a DM from `alice` to the
unregistered `bob`. -/
theorem dm_target_not_found_witness :
    send_direct_message (str "alice") (str "bob") (str "hi")
      [(1, ⟨str "alice", 0⟩)] (fun _ => true) =
      (match findByUsername (str "alice") [(1, (⟨str "alice", 0⟩ : Session))] with
       | some ssock => [⟨ssock, str "ERR user-not-found\n", true⟩]
       | none => []) :=
  dm_target_not_found [(1, ⟨str "alice", 0⟩)] (str "alice") (str "bob") (str "hi")
    (fun _ => true) (by decide)

/-- C6 counterexample: the received line `MSG   ` — whitespace-only
text — is answered with `ERR unknown-command`, not silently ignored. -/
theorem msg_whitespace_only_counterexample :
    handle_command (str "MSG   ") = CommandAction.reply (str "ERR unknown-command\n") ∧
    handle_command (str "MSG   ") ≠ CommandAction.silentIgnore := by
  decide

/-- C6 amended: an `MSG` line whose text is empty after trimming is
never silently ignored: outer stripping removes the trailing
whitespace, the stripped line no longer matches the `MSG ` prefix,
and the server replies `ERR unknown-command`; the silent-ignore
branch is unreachable for every input line. -/
theorem msg_empty_text_replies_unknown (data ws : Str)
    (hws : ∀ c ∈ ws, pyWS c = true) :
    handle_command (str "MSG" ++ ws) =
      CommandAction.reply (str "ERR unknown-command\n") ∧
    handle_command data ≠ CommandAction.silentIgnore := by
  constructor
  · have hsl : stripLeft (str "MSG" ++ ws) = str "MSG" ++ ws := by
      have hc : str "MSG" ++ ws = 'M' :: (str "SG" ++ ws) := rfl
      rw [hc]
      exact stripLeft_cons_of_neg _ _ (by decide)
    have hsr : stripRight (str "MSG" ++ ws) = str "MSG" := by
      unfold stripRight
      rw [List.reverse_append,
        dropWhile_append_all pyWS ws.reverse _ (fun c hc => hws c (List.mem_reverse.mp hc)),
        show List.dropWhile pyWS (str "MSG").reverse = (str "MSG").reverse from by decide,
        List.reverse_reverse]
    have hstrip : strip (str "MSG" ++ ws) = str "MSG" := by
      unfold strip
      rw [hsl, hsr]
    unfold handle_command
    rw [hstrip]
    decide
  · unfold handle_command
    by_cases hmsg : startswith (str "MSG ") (strip data) = true
    · rw [if_pos hmsg]
      have hne := strip_msg_payload_ne_nil data hmsg
      rw [if_neg (by simpa using hne)]
      exact fun h => CommandAction.noConfusion h
    · rw [if_neg hmsg]
      split
      · exact fun h => CommandAction.noConfusion h
      · split
        · split
          · exact fun h => CommandAction.noConfusion h
          · exact fun h => CommandAction.noConfusion h
        · split
          · exact fun h => CommandAction.noConfusion h
          · exact fun h => CommandAction.noConfusion h

/-- C6 amended witness: whitespace payload `   ` and probe line
`MSG hello`. -/
theorem msg_empty_text_replies_unknown_witness :
    handle_command (str "MSG" ++ str "   ") =
      CommandAction.reply (str "ERR unknown-command\n") ∧
    handle_command (str "MSG hello") ≠ CommandAction.silentIgnore :=
  msg_empty_text_replies_unknown (str "MSG hello") (str "   ") (by decide)

/-- C7: `WHO` produces exactly one `USER <name>\n` line per session in
the registry snapshot, in snapshot order — hence also one for the
requester's own session — all addressed to the requesting connection
only; a failing line send is recorded and swallowed without changing
which lines are attempted. -/
theorem who_lists_every_session (sock : Handle) (clients : Registry)
    (sendOk : Handle → Bool) :
    send_user_list sock sendOk clients =
      clients.map (fun e => ⟨sock, str "USER " ++ e.2.username ++ str "\n", sendOk sock⟩) ∧
    ∀ a ∈ send_user_list sock sendOk clients, a.recipient = sock := by
  refine ⟨send_user_list_eq_map sock sendOk clients, fun a ha => ?_⟩
  rw [send_user_list_eq_map] at ha
  obtain ⟨e, _, rfl⟩ := List.mem_map.mp ha
  rfl

/-- C7 witness: a two-session registry queried by the session holding
handle 1. -/
theorem who_lists_every_session_witness :
    send_user_list 1 (fun _ => true) [(1, ⟨str "alice", 0⟩), (2, ⟨str "bob", 3⟩)] =
      [(1, (⟨str "alice", 0⟩ : Session)), (2, ⟨str "bob", 3⟩)].map
        (fun e => ⟨1, str "USER " ++ e.2.username ++ str "\n", true⟩) ∧
    (⟨1, str "USER alice\n", true⟩ : SendAttempt).recipient = 1 :=
  ⟨(who_lists_every_session 1 [(1, ⟨str "alice", 0⟩), (2, ⟨str "bob", 3⟩)]
      (fun _ => true)).1,
   (who_lists_every_session 1 [(1, ⟨str "alice", 0⟩), (2, ⟨str "bob", 3⟩)]
      (fun _ => true)).2 ⟨1, str "USER alice\n", true⟩ (by decide)⟩

/-- C8 counterexample: reaper started at time 0, session last active at
time 0: the scans at 10..60 do not reap it (elapsed 60 is not `> 60`),
the scan at 70 does, so the disconnection elapsed time is 70, outside
the claimed window `[60, 70)`. -/
theorem idle_window_counterexample :
    (∀ j, j < 6 → timedOut (scan_time 0 j) ⟨str "alice", 0⟩ = false) ∧
    timedOut (scan_time 0 6) ⟨str "alice", 0⟩ = true ∧
    scan_time 0 6 - 0 = 70 ∧
    ¬(60 ≤ scan_time 0 6 - 0 ∧ scan_time 0 6 - 0 < 70) := by
  decide

/-- C8 amended: each 10-second reaper scan selects exactly the sessions
whose elapsed time since last activity strictly exceeds 60 seconds,
sends each `INFO idle-timeout\n` and — when that send does not raise —
starts its disconnect, whose announce path broadcasts
`INFO <name> disconnected` to the sessions remaining after removal;
the reaping scan's elapsed time lies in `(60, 70]`, not `[60, 70)`. -/
theorem idle_reaper_spec (now : Nat) (clients : Registry) (sendOk : Handle → Bool)
    (start a k : Nat) (hs : start ≤ a)
    (hk : idle_timeout < scan_time start k - a)
    (hfirst : ∀ j, j < k → scan_time start j - a ≤ idle_timeout) :
    (check_idle_scan now clients sendOk =
      (clients.filter fun e => timedOut now e.2).map
        (fun e => ⟨e.1, ⟨e.1, str "INFO idle-timeout\n", sendOk e.1⟩, sendOk e.1⟩)) ∧
    (∀ e ∈ clients, timedOut now e.2 = true ↔ idle_timeout < now - e.2.lastActivity) ∧
    (60 < scan_time start k - a ∧ scan_time start k - a ≤ 70) ∧
    (∀ sock s, dictFind sock clients = some s → s.username ≠ [] →
      (handle_disconnect sock (some s.username) clients sendOk).sends =
        broadcast_info (s.username ++ str " disconnected")
          (dictRemove sock clients) sendOk) := by
  refine ⟨check_idle_scan_eq_filter now clients sendOk, ?_, ?_, ?_⟩
  · intro e _
    simp [timedOut]
  · exact first_reap_window start a k hs hk hfirst
  · intro sock s hf hne
    simp only [handle_disconnect, hf, disconnectAnnounce]
    rw [if_neg (by simpa using hne)]

/-- C8 amended witness: reaper start 0, last activity 0, reaping scan
index 6 (time 70), one-session registry scanned at time 70. -/
theorem idle_reaper_spec_witness :
    (check_idle_scan 70 [(1, ⟨str "alice", 0⟩)] (fun _ => true) =
      ([(1, (⟨str "alice", 0⟩ : Session))].filter fun e => timedOut 70 e.2).map
        (fun e => ⟨e.1, ⟨e.1, str "INFO idle-timeout\n", true⟩, true⟩)) ∧
    (60 < scan_time 0 6 - 0 ∧ scan_time 0 6 - 0 ≤ 70) :=
  ⟨(idle_reaper_spec 70 [(1, ⟨str "alice", 0⟩)] (fun _ => true) 0 0 6 (by decide)
      (by decide) (by decide)).1,
   (idle_reaper_spec 70 [(1, ⟨str "alice", 0⟩)] (fun _ => true) 0 0 6 (by decide)
      (by decide) (by decide)).2.2.1⟩

/-- C9: a successful line receive returns exactly the bytes of the
accumulated buffer before its first newline — the returned line is
newline-free and the consumed chunks flatten to
`line ++ '\n' :: discarded` — and only whole unconsumed chunks remain
readable afterwards, so the `discarded` bytes after the newline
(later commands sent in the same chunk) are lost; concretely, a chunk
`CMD1\nCMD2\n` yields only `CMD1` and leaves nothing to read. -/
theorem receive_returns_first_line_only (chunks : List Str) (line : Str)
    (rest : List Str) (h : receive_message chunks = some (line, rest)) :
    (∃ consumed discarded, chunks = consumed ++ rest ∧
      consumed.flatten = line ++ '\n' :: discarded ∧
      containsNl line = false) ∧
    receive_message [str "CMD1\nCMD2\n"] = some (str "CMD1", []) ∧
    receive_message [] = none := by
  refine ⟨?_, by decide, rfl⟩
  obtain ⟨consumed, discarded, h₁, h₂, h₃⟩ := receive_loop_spec chunks [] line rest h
  exact ⟨consumed, discarded, h₁, by simpa using h₂, h₃⟩

/-- C9 witness: the two-command chunk itself. -/
theorem receive_returns_first_line_only_witness :
    (∃ consumed discarded, [str "CMD1\nCMD2\n"] = consumed ++ ([] : List Str) ∧
      consumed.flatten = str "CMD1" ++ '\n' :: discarded ∧
      containsNl (str "CMD1") = false) ∧
    receive_message [str "CMD1\nCMD2\n"] = some (str "CMD1", []) ∧
    receive_message [] = none :=
  receive_returns_first_line_only [str "CMD1\nCMD2\n"] (str "CMD1") [] (by decide)

/-- C10: every session present in a reachable registry state has a
non-empty username with no leading or trailing whitespace: login
strips the submitted name and rejects the empty result before
registering, and no later registry operation rewrites a stored
username. -/
theorem usernames_nonempty_stripped (c : Registry) (hR : Reachable c) :
    ∀ e ∈ c, e.2.username ≠ [] ∧ stripLeft e.2.username = e.2.username ∧
      stripRight e.2.username = e.2.username := by
  intro e he
  obtain ⟨hne, hstrip⟩ := (reachable_inv c hR).2 e he
  obtain ⟨hL, hRt⟩ := strip_fix_parts _ hstrip
  exact ⟨hne, hL, hRt⟩

/-- C10 witness: the session created by `LOGIN alice` from the empty
registry. -/
theorem usernames_nonempty_stripped_witness :
    str "alice" ≠ [] ∧ stripLeft (str "alice") = str "alice" ∧
      stripRight (str "alice") = str "alice" :=
  usernames_nonempty_stripped _ (Reachable.login (str "LOGIN alice") 1 5 Reachable.init)
    (1, ⟨str "alice", 5⟩) (List.mem_singleton.mpr rfl)

end Chat
